import Mathlib

/-!
# msocket: `udp_msrecvraw_mod.c`

A shallow embedding of `mexFunction` from
`PublicLib/Msocket/src/udp_msrecvraw_mod.c`, the MEX wrapper that waits on a
datagram socket with `select` and hands one `recv` back to MATLAB as a
`uint8` column.

Modelling conventions

* A byte is a `Fin 256`.  `char buf[]` and `char *cdata` only move bytes
  around, so signedness of `char` plays no role.
* A MATLAB `double` is the rational number it stands for (no NaN, no
  infinities).  Comparison, `(int)` and `fmod` are exact on it; the product
  `fmod(timeout,1.0)*1.0E6` is rounded as IEEE-754 binary64 does, to the nearest
  value with 53 significant bits, ties to even.
* `int` values are kept as mathematical integers.  The conversions
  `(int) timeout`, `(int) mxGetScalar(prhs[0])` and the sum `sock+1` are only
  defined in C while they fit in an `int`; theorems that depend on the value
  carry that range as a hypothesis.
* The operating system (`select`, `recv`) is a parameter: a record of two
  transition functions over an arbitrary state type.
* The run of `mexFunction` is total.  It returns the library and system calls
  it made, in order, every array access it made (array, index, array size), and
  the value left in `plhs[0]`, if any.  An array access outside its array has
  no effect on the modelled arrays (a read yields `0`) and stays visible in the
  access log.
-/

namespace Msocket

/-- One octet. -/
abbrev Byte := Fin 256

/-- The constant `#define MAX_UDP_PACKET_SIZE 28`. -/
def MAX_UDP_PACKET_SIZE : Int := 28

/-! ## MATLAB values -/

/-- An input argument `prhs[i]`, seen through the two accessors the wrapper
uses: `mxIsNumeric` and `mxGetScalar`. -/
structure MxArg where
  isNumeric : Bool
  scalar : ℚ

/-- The accessor `mxIsNumeric(a)`. -/
def mxIsNumeric (a : MxArg) : Bool := a.isNumeric

/-- The accessor `mxGetScalar(a)`. -/
def mxGetScalar (a : MxArg) : ℚ := a.scalar

/-- The two class identifiers the wrapper passes to `mxCreateNumericMatrix`. -/
inductive ClassID
  | mxCHAR_CLASS
  | mxUINT8_CLASS
deriving DecidableEq, Repr

/-- An output array: its two dimensions, its class and its elements (one list
entry per element, in column-major order). -/
structure MxArray where
  m : Int
  n : Int
  classID : ClassID
  data : List Byte
deriving DecidableEq, Repr

/-- The constructor `mxCreateNumericMatrix(m, n, classid, mxREAL)`: an `m`-by-`n`
array whose elements are initialised to zero.  A negative dimension holds no
element here. -/
def mxCreateNumericMatrix (m n : Int) (classid : ClassID) : MxArray :=
  { m := m, n := n, classID := classid, data := List.replicate (m.toNat * n.toNat) 0 }

/-- Number of elements of an array. -/
def MxArray.numel (a : MxArray) : Nat := a.data.length

/-! ## C arithmetic -/

/-- The conversion `(int) x` of a `double`: truncation toward zero. -/
def cInt (x : ℚ) : Int := Int.tdiv x.num x.den

/-- The function `fmod(x, y)` of `<math.h>`: `x - n*y` with `n` the quotient
`x/y` truncated toward zero. -/
def fmod (x y : ℚ) : ℚ := x - (cInt (x / y) : ℚ) * y

/-- The integer nearest to `q`; halfway between two integers, the even one. -/
def roundHalfEven (q : ℚ) : Int :=
  if q - ⌊q⌋ < 1 / 2 then ⌊q⌋
  else if 1 / 2 < q - ⌊q⌋ then ⌊q⌋ + 1
  else if ⌊q⌋ % 2 = 0 then ⌊q⌋ else ⌊q⌋ + 1

/-- The exponent of the unit in the last place of a binary64 number near `x`:
53 significant bits, and `-1022` as least exponent (below it the spacing stays
`2^(-1074)`). -/
def ulpExp (x : ℚ) : Int := max (Int.log 2 |x|) (-1022) - 52

/-- The value `x` rounded to binary64: the nearest multiple of the unit in the
last place, ties to even.  Overflow to infinity is not modelled. -/
def rnd64 (x : ℚ) : ℚ := (roundHalfEven (x / 2 ^ ulpExp x) : ℚ) * 2 ^ ulpExp x

/-- The value `x` is a binary64 number: rounding leaves it as it is. -/
def isBinary64 (x : ℚ) : Prop := rnd64 x = x

instance (x : ℚ) : Decidable (isBinary64 x) := by
  unfold isBinary64; exact inferInstance

/-- The product `x * y` of two `double`s. -/
def fmul (x y : ℚ) : ℚ := rnd64 (x * y)

/-- The record `struct timeval`. -/
structure Timeval where
  tv_sec : Int
  tv_usec : Int
deriving DecidableEq, Repr

/-! ## Descriptor sets (`<winsock2.h>`) -/

/-- An `fd_set`: the sockets it lists. -/
abbrev FdSet := List Int

/-- The macro `FD_ZERO`. -/
def FD_ZERO : FdSet := []

/-- The macro `FD_SET(fd, set)`: adds `fd` unless it is listed already. -/
def FD_SET (fd : Int) (set : FdSet) : FdSet := if fd ∈ set then set else set ++ [fd]

/-- The macro `FD_ISSET(fd, set)`. -/
def FD_ISSET (fd : Int) (set : FdSet) : Bool := decide (fd ∈ set)

/-! ## The operating system -/

/-- What `select` hands back: its return value and the three sets as it left
them. -/
structure SelectResult where
  ret : Int
  readfds : FdSet
  writefds : FdSet
  exceptfds : FdSet

/-- What `recv` hands back: its return value and the bytes it stored at the
start of the caller's buffer. -/
structure RecvResult where
  ret : Int
  stored : List Byte

/-- The two system calls of the wrapper, as transitions of a system state `σ`.
`select nfds readfds writefds exceptfds timeout` (`timeout = none` is the null
pointer) and `recv s len flags`. -/
structure OS (σ : Type) where
  select : Int → FdSet → FdSet → FdSet → Option Timeval → σ → SelectResult × σ
  recv : Int → Int → Int → σ → RecvResult × σ

/-! ## Calls and array accesses -/

/-- A call made by the wrapper, with its arguments. -/
inductive Call
  | mexPrintf (msg : String)
  | select (nfds : Int) (readfds writefds exceptfds : FdSet) (timeout : Option Timeval)
  | recv (s : Int) (len : Int) (flags : Int)
  | mxCreateNumericMatrix (m n : Int) (classid : ClassID)
deriving DecidableEq, Repr

/-- The two arrays the wrapper indexes. -/
inductive Region
  | buf
  | cdata
deriving DecidableEq, Repr

/-- One indexed access `a[index]`: which array, read or write, the index, and
the number of elements the array has. -/
structure Access where
  region : Region
  write : Bool
  index : Int
  size : Nat
deriving DecidableEq, Repr

/-- The access falls inside its array. -/
def Access.inBounds (a : Access) : Prop := 0 ≤ a.index ∧ a.index < a.size

instance (a : Access) : Decidable a.inBounds := by
  unfold Access.inBounds; exact inferInstance

/-- The read `a[k]`; `0` when `k` is outside `a`. -/
def load (a : List Byte) (k : Int) : Byte :=
  if 0 ≤ k then a.getD k.toNat 0 else 0

/-- The write `a[k] = v`; `a` is unchanged when `k` is outside it. -/
def store (a : List Byte) (k : Int) (v : Byte) : List Byte :=
  if 0 ≤ k then a.set k.toNat v else a

/-- The local arrays of one invocation and the accesses made so far. -/
structure Frame where
  buf : List Byte
  cdata : List Byte
  log : List Access

/-- The statement `buf[k]=0`. -/
def zeroStep (fr : Frame) (k : Nat) : Frame :=
  { fr with
    buf := store fr.buf k 0
    log := fr.log ++ [⟨Region.buf, true, k, MAX_UDP_PACKET_SIZE.toNat⟩] }

/-- The loop `for (k=0;k<MAX_UDP_PACKET_SIZE;k++) buf[k]=0;`. -/
def zeroFill (fr : Frame) : Frame :=
  (List.range MAX_UDP_PACKET_SIZE.toNat).foldl zeroStep fr

/-- The statement `cdata[k] = buf[k]`. -/
def copyStep (fr : Frame) (k : Nat) : Frame :=
  { fr with
    cdata := store fr.cdata k (load fr.buf k)
    log := fr.log ++ [⟨Region.buf, false, k, MAX_UDP_PACKET_SIZE.toNat⟩,
                      ⟨Region.cdata, true, k, fr.cdata.length⟩] }

/-- The loop `for (k=0;k<ret;k++) cdata[k] = buf[k];`. -/
def copyLoop (ret : Int) (fr : Frame) : Frame :=
  (List.range ret.toNat).foldl copyStep fr

/-- The statement `cdata[ret] = 0`. -/
def terminate (ret : Int) (fr : Frame) : Frame :=
  { fr with
    cdata := store fr.cdata ret 0
    log := fr.log ++ [⟨Region.cdata, true, ret, fr.cdata.length⟩] }

/-- The effect of `recv` on the caller's buffer: the stored bytes replace its
first entries. -/
def recvStore (buf stored : List Byte) : List Byte :=
  stored ++ buf.drop stored.length

/-- The outcome of one invocation: the system state it leaves, its calls in
order, its array accesses in order, and `plhs[0]` (`none`: never assigned). -/
structure Run (σ : Type) where
  os : σ
  calls : List Call
  accesses : List Access
  plhs0 : Option MxArray

/-- The argument `prhs[i]`. -/
def arg (prhs : List MxArg) (i : Nat) : MxArg := prhs.getD i ⟨false, 0⟩

/-- The timeout in seconds: `double timeout = -1;` unless a second argument is
given, in which case `timeout = mxGetScalar(prhs[1]);`. -/
def timeoutOf (prhs : List MxArg) : ℚ :=
  if (prhs.length : Int) > 1 then mxGetScalar (arg prhs 1) else -1

/-- The socket: `sock = (int)mxGetScalar(prhs[0]);`. -/
def sockOf (prhs : List MxArg) : Int := cInt (mxGetScalar (arg prhs 0))

/-- The last argument of `select`: the null pointer when `timeout < 0`, else
`tv` with `tv.tv_sec = (int) timeout;` and
`tv.tv_usec = (int) (fmod(timeout,1.0)*1.0E6);`. -/
def timevalOf (timeout : ℚ) : Option Timeval :=
  if timeout < 0 then none
  else some ⟨cInt timeout, cInt (fmul (fmod timeout 1.0) 1.0E6)⟩

/-- The readiness wait: `FD_ZERO` on the three sets, `FD_SET(sock, ...)` on the
read and exception sets, then `select(sock+1, &readfds, &writefds, &exceptfds, ...)`. -/
def wait {σ : Type} (os : OS σ) (prhs : List MxArg) (w : σ) : SelectResult × σ :=
  os.select (sockOf prhs + 1) (FD_SET (sockOf prhs) FD_ZERO) FD_ZERO
    (FD_SET (sockOf prhs) FD_ZERO) (timevalOf (timeoutOf prhs)) w

/-- The test `FD_ISSET(sock,&readfds)` after the wait. -/
def readable {σ : Type} (os : OS σ) (prhs : List MxArg) (w : σ) : Bool :=
  FD_ISSET (sockOf prhs) (wait os prhs w).1.readfds

/-- The call `recv(sock,buf,MAX_UDP_PACKET_SIZE,0)` after the wait. -/
def receive {σ : Type} (os : OS σ) (prhs : List MxArg) (w : σ) : RecvResult × σ :=
  os.recv (sockOf prhs) MAX_UDP_PACKET_SIZE 0 (wait os prhs w).2

/-- The entry point `mexFunction(nlhs, plhs, nrhs, prhs)`.  `nrhs` is the length
of `prhs`; `junk k` is the byte the uninitialised `buf[k]` holds on entry. -/
def mexFunction {σ : Type} (os : OS σ) (junk : Nat → Byte) (prhs : List MxArg) (w : σ) :
    Run σ :=
  let nrhs : Int := prhs.length
  let fr0 := zeroFill ⟨(List.range MAX_UDP_PACKET_SIZE.toNat).map junk, [], []⟩
  if nrhs < 1 then
    ⟨w, [Call.mexPrintf "Must input a socket \n"], fr0.log, none⟩
  else if !mxIsNumeric (arg prhs 0) then
    ⟨w, [Call.mexPrintf "Invalid arguments.\n"], fr0.log, none⟩
  else if nrhs > 1 && !mxIsNumeric (arg prhs 1) then
    ⟨w, [Call.mexPrintf "2rd argument (timeout in s) must be numeric.\n"], fr0.log, none⟩
  else
    let sock := sockOf prhs
    let sel := wait os prhs w
    let c1 := [Call.select (sock + 1) (FD_SET sock FD_ZERO) FD_ZERO (FD_SET sock FD_ZERO)
                (timevalOf (timeoutOf prhs))]
    if FD_ISSET sock sel.1.readfds == false then
      ⟨sel.2, c1 ++ [Call.mxCreateNumericMatrix 0 0 ClassID.mxCHAR_CLASS], fr0.log,
        some (mxCreateNumericMatrix 0 0 ClassID.mxCHAR_CLASS)⟩
    else
      let rc := receive os prhs w
      let ret := rc.1.ret
      let buf := recvStore fr0.buf (rc.1.stored.take MAX_UDP_PACKET_SIZE.toNat)
      let out := mxCreateNumericMatrix (ret + 1) 1 ClassID.mxUINT8_CLASS
      let fr := terminate ret (copyLoop ret ⟨buf, out.data, fr0.log⟩)
      ⟨rc.2,
        c1 ++ [Call.recv sock MAX_UDP_PACKET_SIZE 0,
               Call.mxCreateNumericMatrix (ret + 1) 1 ClassID.mxUINT8_CLASS],
        fr.log, some { out with data := fr.cdata }⟩

/-- The argument list passes the three checks at the top of `mexFunction`: a
first argument is present and numeric, and a second one, if present, is
numeric. -/
def validArgs (prhs : List MxArg) : Prop :=
  1 ≤ prhs.length ∧ mxIsNumeric (arg prhs 0) = true ∧
    (1 < prhs.length → mxIsNumeric (arg prhs 1) = true)

instance (prhs : List MxArg) : Decidable (validArgs prhs) := by
  unfold validArgs; exact inferInstance

/-- The accesses of the zero-fill loop run up to `n`. -/
def zeroAccesses : Nat → List Access
  | 0 => []
  | n + 1 => zeroAccesses n ++ [⟨Region.buf, true, n, MAX_UDP_PACKET_SIZE.toNat⟩]

/-- The accesses of the copy loop run up to `n` on a result of `size` elements. -/
def copyAccesses (size : Nat) : Nat → List Access
  | 0 => []
  | n + 1 => copyAccesses size n ++
      [⟨Region.buf, false, n, MAX_UDP_PACKET_SIZE.toNat⟩, ⟨Region.cdata, true, n, size⟩]

/-! ## A socket as a queue of datagrams -/

/-- A system with one datagram socket, whose state is the queue of datagrams
waiting on it.  `select` leaves the socket in `readfds` exactly when a datagram
waits, and clears the other sets.  `recv` takes the datagram at the head of the
queue, stores at most `len` of its bytes and returns how many it stored; what
is left of a longer datagram is dropped.  On an empty queue `recv` fails with
`-1`.  This is a model of the environment, not code of the wrapper: cutting a
long datagram at `len` is the rule the specification gives for the 28-byte
capacity, and a system may instead report such a datagram as a failure. -/
def queueOS : OS (List (List Byte)) where
  select := fun _ readfds _ _ _ q =>
    (⟨if q.isEmpty then 0 else readfds.length, if q.isEmpty then [] else readfds, [], []⟩, q)
  recv := fun _ len _ q =>
    match q with
    | [] => (⟨-1, []⟩, [])
    | d :: rest => (⟨(d.take len.toNat).length, d.take len.toNat⟩, rest)

/-- A system whose socket is always reported readable and whose `recv` always
fails: it returns `-1` and stores nothing. -/
def failingOS : OS Unit where
  select := fun _ readfds _ _ _ u => (⟨1, readfds, [], []⟩, u)
  recv := fun _ _ _ u => (⟨-1, []⟩, u)

/-- The system `os` observed from outside: it answers every call as `os` does
and writes down, next to the state of `os`, each call that reaches it, with the
arguments it was given. -/
def spy {σ : Type} (os : OS σ) : OS (σ × List Call) where
  select := fun nfds readfds writefds exceptfds timeout s =>
    ((os.select nfds readfds writefds exceptfds timeout s.1).1,
      ((os.select nfds readfds writefds exceptfds timeout s.1).2,
        s.2 ++ [Call.select nfds readfds writefds exceptfds timeout]))
  recv := fun sk len flags s =>
    ((os.recv sk len flags s.1).1,
      ((os.recv sk len flags s.1).2, s.2 ++ [Call.recv sk len flags]))

/-- The binary64 number nearest to `0.3`. -/
def nearestToThreeTenths : ℚ := 5404319552844595 / 2 ^ 54

/-- The accesses of a run that touch the given array. -/
def accessesOf (r : Region) (l : List Access) : List Access := l.filter (fun a => a.region == r)

/-- The `timeout` argument of every `select` call in a trace. -/
def selectTimeouts : List Call → List (Option Timeval)
  | [] => []
  | Call.select _ _ _ _ t :: cs => t :: selectTimeouts cs
  | _ :: cs => selectTimeouts cs

/-- The trace contains a `recv` call. -/
def callsRecv : List Call → Bool
  | [] => false
  | Call.recv _ _ _ :: _ => true
  | _ :: cs => callsRecv cs

/-- The trace contains a `select` call. -/
def callsSelect : List Call → Bool
  | [] => false
  | Call.select _ _ _ _ _ :: _ => true
  | _ :: cs => callsSelect cs

/-- The trace contains a diagnostic (`mexPrintf`). -/
def callsPrintf : List Call → Bool
  | [] => false
  | Call.mexPrintf _ :: _ => true
  | _ :: cs => callsPrintf cs

/-- The scratch buffer right after `recv`: the zero-filled array with the stored
bytes (at most `MAX_UDP_PACKET_SIZE` of them) at its start. -/
def bufAfter (stored : List Byte) : List Byte :=
  recvStore (List.replicate 28 0) (stored.take 28)

/-! ## Memory and loop lemmas -/

theorem store_natCast (a : List Byte) (k : Nat) (v : Byte) : store a (k : Int) v = a.set k v := by
  simp [store]

theorem load_natCast (a : List Byte) (k : Nat) : load a (k : Int) = a.getD k 0 := by
  simp [load]

theorem set_replicate_append_drop (l : List Byte) (n : Nat) (v : Byte) (h : n < l.length) :
    (List.replicate n v ++ l.drop n).set n v = List.replicate (n + 1) v ++ l.drop (n + 1) := by
  rw [List.set_append_right _ _ (by simp)]
  simp only [List.length_replicate, Nat.sub_self]
  rw [List.drop_eq_getElem_cons h, List.set_cons_zero, List.replicate_succ']
  simp

theorem foldl_zeroStep (n : Nat) (fr : Frame) (h : n ≤ fr.buf.length) :
    (List.range n).foldl zeroStep fr =
      ⟨List.replicate n 0 ++ fr.buf.drop n, fr.cdata, fr.log ++ zeroAccesses n⟩ := by
  induction n with
  | zero => simp [zeroAccesses]
  | succ n ih =>
    rw [List.range_succ, List.foldl_append, ih (by omega)]
    simp only [List.foldl_cons, List.foldl_nil, zeroStep, store_natCast, zeroAccesses]
    rw [set_replicate_append_drop _ _ _ (by omega)]
    simp

theorem foldl_copyStep (n : Nat) (fr : Frame) (h : n ≤ fr.cdata.length) :
    (List.range n).foldl copyStep fr =
      ⟨fr.buf, (List.range n).map (fun k => fr.buf.getD k 0) ++ fr.cdata.drop n,
        fr.log ++ copyAccesses fr.cdata.length n⟩ := by
  induction n with
  | zero => simp [copyAccesses]
  | succ n ih =>
    rw [List.range_succ, List.foldl_append, ih (by omega)]
    simp only [List.foldl_cons, List.foldl_nil, copyStep, store_natCast, load_natCast, copyAccesses]
    rw [List.set_append_right _ _ (by simp)]
    simp only [List.length_map, List.length_range, Nat.sub_self]
    rw [List.drop_eq_getElem_cons (by omega : n < fr.cdata.length), List.set_cons_zero]
    simp
    omega

theorem map_getD_range (l : List Byte) (n : Nat) (h : n ≤ l.length) :
    (List.range n).map (fun k => l.getD k 0) = l.take n := by
  apply List.ext_getElem
  · simp [h]
  · intro i h1 h2
    simp at h1 h2
    simp [List.getD_eq_getElem?_getD, List.getElem?_eq_getElem (by omega : i < l.length)]

theorem zeroFill_init (junk : Nat → Byte) :
    zeroFill ⟨(List.range MAX_UDP_PACKET_SIZE.toNat).map junk, [], []⟩ =
      ⟨List.replicate 28 0, [], zeroAccesses 28⟩ := by
  have h28 : MAX_UDP_PACKET_SIZE.toNat = 28 := rfl
  unfold zeroFill
  rw [foldl_zeroStep _ _ (by simp), h28]
  simp

theorem length_bufAfter (stored : List Byte) : (bufAfter stored).length = 28 := by
  simp [bufAfter, recvStore]

theorem copy_terminate (ret : Int) (buf : List Byte) (log : List Access) :
    terminate ret (copyLoop ret ⟨buf, (mxCreateNumericMatrix (ret + 1) 1 ClassID.mxUINT8_CLASS).data, log⟩) =
      ⟨buf,
        if 0 ≤ ret then (List.range ret.toNat).map (fun k => buf.getD k 0) ++ [0] else [],
        log ++ copyAccesses (ret + 1).toNat ret.toNat ++
          [⟨Region.cdata, true, ret, (ret + 1).toNat⟩]⟩ := by
  unfold copyLoop
  have hlen : (mxCreateNumericMatrix (ret + 1) 1 ClassID.mxUINT8_CLASS).data.length = (ret + 1).toNat := by
    simp [mxCreateNumericMatrix]
  rw [foldl_copyStep _ _ (by rw [hlen]; omega)]
  simp only [hlen, terminate]
  by_cases h : 0 ≤ ret
  · obtain ⟨n, rfl⟩ := Int.eq_ofNat_of_zero_le h
    have e : ((n : Int) + 1).toNat = n + 1 := by omega
    simp [mxCreateNumericMatrix, e, store_natCast, List.set_append_right]
  · have e : (ret + 1).toNat = 0 := by omega
    have e2 : ret.toNat = 0 := by omega
    simp [mxCreateNumericMatrix, e, e2, store, h, copyAccesses]


theorem validArgs_iff (prhs : List MxArg) :
    validArgs prhs ↔ ¬ ((prhs.length : Int) < 1) ∧ (!mxIsNumeric (arg prhs 0)) = false ∧
      ((decide ((prhs.length : Int) > 1) && !mxIsNumeric (arg prhs 1)) = false) := by
  unfold validArgs
  constructor
  · rintro ⟨h1, h2, h3⟩
    refine ⟨by omega, by simp [h2], ?_⟩
    by_cases h : 1 < prhs.length
    · simp [h3 h]
    · simp; intro h'; omega
  · rintro ⟨h1, h2, h3⟩
    refine ⟨by omega, by simpa using h2, ?_⟩
    intro h
    have : (1 : Int) < prhs.length := by omega
    simpa [this] using h3

theorem mexFunction_invalid {σ : Type} (os : OS σ) (junk : Nat → Byte) (prhs : List MxArg)
    (w : σ) (h : ¬ validArgs prhs) :
    ∃ msg, mexFunction os junk prhs w = ⟨w, [Call.mexPrintf msg], zeroAccesses 28, none⟩ := by
  rw [validArgs_iff] at h
  unfold mexFunction
  simp only [zeroFill_init]
  by_cases h1 : (prhs.length : Int) < 1
  · exact ⟨"Must input a socket \n", by simp only [h1, if_true]⟩
  · by_cases h2 : (!mxIsNumeric (arg prhs 0)) = true
    · exact ⟨"Invalid arguments.\n", by simp only [h1, h2, if_true, if_false]⟩
    · by_cases h3 : (decide ((prhs.length : Int) > 1) && !mxIsNumeric (arg prhs 1)) = true
      · refine ⟨"2rd argument (timeout in s) must be numeric.\n", ?_⟩
        have h2' : (!mxIsNumeric (arg prhs 0)) = false := by simpa using h2
        simp only [h1, h2', h3, if_true, if_false, Bool.false_eq_true]
      · exact absurd ⟨h1, by simpa using h2, by simpa using h3⟩ h

theorem mexFunction_idle {σ : Type} (os : OS σ) (junk : Nat → Byte) (prhs : List MxArg)
    (w : σ) (h : validArgs prhs) (hr : readable os prhs w = false) :
    mexFunction os junk prhs w =
      ⟨(wait os prhs w).2,
        [Call.select (sockOf prhs + 1) (FD_SET (sockOf prhs) FD_ZERO) FD_ZERO
            (FD_SET (sockOf prhs) FD_ZERO) (timevalOf (timeoutOf prhs)),
          Call.mxCreateNumericMatrix 0 0 ClassID.mxCHAR_CLASS],
        zeroAccesses 28, some ⟨0, 0, ClassID.mxCHAR_CLASS, []⟩⟩ := by
  obtain ⟨h1, h2, h3⟩ := (validArgs_iff prhs).1 h
  unfold readable at hr
  unfold mexFunction
  simp only [zeroFill_init, h1, h2, h3, hr, if_false, if_true, beq_self_eq_true]
  simp [mxCreateNumericMatrix]

theorem mexFunction_ready {σ : Type} (os : OS σ) (junk : Nat → Byte) (prhs : List MxArg)
    (w : σ) (h : validArgs prhs) (hr : readable os prhs w = true) :
    mexFunction os junk prhs w =
      ⟨(receive os prhs w).2,
        [Call.select (sockOf prhs + 1) (FD_SET (sockOf prhs) FD_ZERO) FD_ZERO
            (FD_SET (sockOf prhs) FD_ZERO) (timevalOf (timeoutOf prhs)),
          Call.recv (sockOf prhs) MAX_UDP_PACKET_SIZE 0,
          Call.mxCreateNumericMatrix ((receive os prhs w).1.ret + 1) 1 ClassID.mxUINT8_CLASS],
        zeroAccesses 28 ++
          copyAccesses ((receive os prhs w).1.ret + 1).toNat (receive os prhs w).1.ret.toNat ++
          [⟨Region.cdata, true, (receive os prhs w).1.ret, ((receive os prhs w).1.ret + 1).toNat⟩],
        some ⟨(receive os prhs w).1.ret + 1, 1, ClassID.mxUINT8_CLASS,
          if 0 ≤ (receive os prhs w).1.ret then
            (List.range (receive os prhs w).1.ret.toNat).map
              (fun k => (bufAfter (receive os prhs w).1.stored).getD k 0) ++ [0]
          else []⟩⟩ := by
  obtain ⟨h1, h2, h3⟩ := (validArgs_iff prhs).1 h
  unfold readable at hr
  unfold mexFunction
  simp only [zeroFill_init, h1, h2, h3, hr, if_false, if_true, copy_terminate]
  simp [mxCreateNumericMatrix, bufAfter]
  rfl

/-! ## Lemmas on the receive path -/

theorem take_bufAfter (stored : List Byte) (n : Nat) (h : n ≤ stored.length) (h28 : n ≤ 28) :
    (bufAfter stored).take n = stored.take n := by
  unfold bufAfter recvStore
  rw [List.take_append_of_le_length (by simp; omega), List.take_take]
  congr 1
  omega

theorem mem_zeroAccesses (n : Nat) (a : Access) (h : a ∈ zeroAccesses n) :
    a.region = Region.buf ∧ 0 ≤ a.index ∧ a.index < n ∧ a.size = 28 := by
  induction n with
  | zero => simp [zeroAccesses] at h
  | succ n ih =>
    simp only [zeroAccesses, List.mem_append, List.mem_singleton] at h
    rcases h with h | h
    · obtain ⟨h1, h2, h3, h4⟩ := ih h
      exact ⟨h1, h2, by push_cast; omega, h4⟩
    · subst h
      exact ⟨rfl, by simp, by simp, rfl⟩

theorem mem_copyAccesses (size n : Nat) (a : Access) (h : a ∈ copyAccesses size n) :
    0 ≤ a.index ∧ a.index < n ∧
      ((a.region = Region.buf ∧ a.size = 28) ∨ (a.region = Region.cdata ∧ a.size = size)) := by
  induction n with
  | zero => simp [copyAccesses] at h
  | succ n ih =>
    simp only [copyAccesses, List.mem_append, List.mem_cons, List.mem_singleton,
      List.not_mem_nil, or_false] at h
    rcases h with h | h | h
    · obtain ⟨h1, h2, h3⟩ := ih h
      exact ⟨h1, by push_cast; omega, h3⟩
    · subst h
      exact ⟨by simp, by simp, Or.inl ⟨rfl, rfl⟩⟩
    · subst h
      exact ⟨by simp, by simp, Or.inr ⟨rfl, rfl⟩⟩

theorem ready_plhs0 {σ : Type} (os : OS σ) (junk : Nat → Byte) (prhs : List MxArg) (w : σ)
    (hv : validArgs prhs) (hr : readable os prhs w = true) (n : Nat)
    (hret : (receive os prhs w).1.ret = n) (h28 : n ≤ 28) :
    (mexFunction os junk prhs w).plhs0 =
      some ⟨(n : Int) + 1, 1, ClassID.mxUINT8_CLASS,
        (bufAfter (receive os prhs w).1.stored).take n ++ [0]⟩ := by
  rw [mexFunction_ready os junk prhs w hv hr, hret]
  simp only [Int.toNat_ofNat, Int.natCast_nonneg, if_true]
  rw [map_getD_range _ _ (by rw [length_bufAfter]; exact h28)]

theorem queue_readable (prhs : List MxArg) (d : List Byte) (rest : List (List Byte)) :
    readable queueOS prhs (d :: rest) = true := by
  simp [readable, wait, queueOS, FD_ISSET, FD_SET, FD_ZERO]

theorem queue_receive (prhs : List MxArg) (d : List Byte) (rest : List (List Byte)) :
    receive queueOS prhs (d :: rest) = (⟨((d.take 28).length : Nat), d.take 28⟩, rest) := by
  simp [receive, wait, queueOS, MAX_UDP_PACKET_SIZE]

theorem queue_mexFunction (junk : Nat → Byte) (prhs : List MxArg) (hv : validArgs prhs)
    (d : List Byte) (rest : List (List Byte)) :
    (mexFunction queueOS junk prhs (d :: rest)).plhs0 =
        some ⟨((d.take 28).length : Nat) + 1, 1, ClassID.mxUINT8_CLASS, d.take 28 ++ [0]⟩ ∧
      (mexFunction queueOS junk prhs (d :: rest)).os = rest ∧
      callsPrintf (mexFunction queueOS junk prhs (d :: rest)).calls = false := by
  have hr := queue_readable prhs d rest
  have hrc := queue_receive prhs d rest
  refine ⟨?_, ?_, ?_⟩
  · rw [ready_plhs0 queueOS junk prhs _ hv hr (d.take 28).length (by rw [hrc])
      (by rw [List.length_take]; omega), hrc]
    simp only
    rw [take_bufAfter _ _ (le_refl _) (by rw [List.length_take]; omega),
      List.take_of_length_le (le_refl _)]
  · rw [mexFunction_ready queueOS junk prhs _ hv hr, hrc]
  · rw [mexFunction_ready queueOS junk prhs _ hv hr]; rfl

theorem cInt_of_nonneg (x : ℚ) (h : 0 ≤ x) : cInt x = ⌊x⌋ := by
  unfold cInt
  rw [Rat.floor_def, Int.tdiv_eq_ediv (Rat.num_nonneg.2 h) (by positivity)]

theorem fmod_one (x : ℚ) (h : 0 ≤ x) : fmod x 1.0 = x - ⌊x⌋ := by
  unfold fmod
  have e : (1.0 : ℚ) = 1 := by norm_num
  rw [e, div_one, mul_one, cInt_of_nonneg x h]

theorem select_timeout_eq {σ : Type} (os : OS σ) (junk : Nat → Byte) (prhs : List MxArg)
    (w : σ) (hv : validArgs prhs) :
    selectTimeouts (mexFunction os junk prhs w).calls = [timevalOf (timeoutOf prhs)] := by
  cases hr : readable os prhs w with
  | false => rw [mexFunction_idle os junk prhs w hv hr]; rfl
  | true => rw [mexFunction_ready os junk prhs w hv hr]; rfl

/-! ## Binary64 rounding, the timeout, and the observed system -/

theorem floor_le_roundHalfEven (q : ℚ) : ⌊q⌋ ≤ roundHalfEven q := by
  unfold roundHalfEven
  split_ifs <;> omega

theorem roundHalfEven_le_floor_add_one (q : ℚ) : roundHalfEven q ≤ ⌊q⌋ + 1 := by
  unfold roundHalfEven
  split_ifs <;> omega

theorem le_roundHalfEven (a : Int) (q : ℚ) (h : (a : ℚ) ≤ q) : a ≤ roundHalfEven q :=
  le_trans (Int.le_floor.2 h) (floor_le_roundHalfEven q)

theorem roundHalfEven_le_pred (b : Int) (q : ℚ) (h : q < (b : ℚ) - 1 / 2) :
    roundHalfEven q ≤ b - 1 := by
  have hfl : ⌊q⌋ ≤ b - 1 := by
    have : ⌊q⌋ < b := Int.floor_lt.2 (by linarith)
    omega
  rcases hfl.lt_or_eq with h1 | h1
  · have := roundHalfEven_le_floor_add_one q
    omega
  · have hlt : q - ⌊q⌋ < 1 / 2 := by
      rw [h1]; push_cast; linarith
    unfold roundHalfEven
    rw [if_pos hlt, h1]

theorem roundHalfEven_le (b : Int) (q : ℚ) (h : q ≤ (b : ℚ)) : roundHalfEven q ≤ b := by
  rcases h.lt_or_eq with h1 | h1
  · have : ⌊q⌋ < b := Int.floor_lt.2 h1
    have := roundHalfEven_le_floor_add_one q
    omega
  · subst h1
    unfold roundHalfEven
    simp

theorem two_zpow_pos (e : Int) : (0 : ℚ) < 2 ^ e := by positivity

theorem ulpExp_nonpos (x : ℚ) (h : |x| < 2 ^ 53) : ulpExp x ≤ 0 := by
  unfold ulpExp
  have hlog : Int.log 2 |x| < 53 := by
    rcases (abs_nonneg x).lt_or_eq with h0 | h0
    · apply (Int.lt_zpow_iff_log_lt (by norm_num) h0).1
      exact_mod_cast h
    · rw [← h0, Int.log_zero_right]; norm_num
  have : max (Int.log 2 |x|) (-1022) ≤ 52 := max_le (by omega) (by norm_num)
  omega

theorem rnd64_between (x : ℚ) (a b : Int) (h : |x| < 2 ^ 53) (ha : (a : ℚ) ≤ x)
    (hb : x ≤ (b : ℚ)) : (a : ℚ) ≤ rnd64 x ∧ rnd64 x ≤ (b : ℚ) := by
  obtain ⟨j, hj⟩ : ∃ j : Nat, ulpExp x = -(j : Int) :=
    ⟨(-ulpExp x).toNat, by have := ulpExp_nonpos x h; omega⟩
  unfold rnd64
  rw [hj]
  have hu : (0 : ℚ) < 2 ^ (-(j : Int)) := two_zpow_pos _
  have hinv : (2 : ℚ) ^ (-(j : Int)) = 1 / 2 ^ j := by
    rw [zpow_neg, zpow_natCast, one_div]
  have hp : (0 : ℚ) < 2 ^ j := by positivity
  rw [hinv, div_div_eq_mul_div, div_one]
  have h1 : a * 2 ^ j ≤ roundHalfEven (x * 2 ^ j) := by
    apply le_roundHalfEven
    push_cast
    exact mul_le_mul_of_nonneg_right ha hp.le
  have h2 : roundHalfEven (x * 2 ^ j) ≤ b * 2 ^ j := by
    apply roundHalfEven_le
    push_cast
    exact mul_le_mul_of_nonneg_right hb hp.le
  have h1' : ((a * 2 ^ j : Int) : ℚ) ≤ (roundHalfEven (x * 2 ^ j) : ℚ) := by exact_mod_cast h1
  have h2' : (roundHalfEven (x * 2 ^ j) : ℚ) ≤ ((b * 2 ^ j : Int) : ℚ) := by exact_mod_cast h2
  push_cast at h1' h2'
  constructor
  · rw [mul_one_div, le_div_iff₀ hp]; exact h1'
  · rw [mul_one_div, div_le_iff₀ hp]; exact h2'

theorem succ_le_roundHalfEven (a : Int) (q : ℚ) (h : (a : ℚ) + 1 / 2 < q) :
    a + 1 ≤ roundHalfEven q := by
  have hfl : a ≤ ⌊q⌋ := Int.le_floor.2 (by linarith)
  rcases hfl.lt_or_eq with h1 | h1
  · have := floor_le_roundHalfEven q
    omega
  · have hgt : 1 / 2 < q - ⌊q⌋ := by
      rw [← h1]; linarith
    unfold roundHalfEven
    rw [if_neg (not_lt.2 hgt.le), if_pos hgt, h1]

theorem roundHalfEven_eq (n : Int) (q : ℚ) (h1 : (n : ℚ) - 1 / 2 < q)
    (h2 : q < (n : ℚ) + 1 / 2) : roundHalfEven q = n := by
  have a := roundHalfEven_le_pred (n + 1) q (by push_cast; linarith)
  have b := succ_le_roundHalfEven (n - 1) q (by push_cast; linarith)
  omega

theorem ulpExp_eq (x : ℚ) (e : Int) (hlo : (2 : ℚ) ^ e ≤ x) (hhi : x < 2 ^ (e + 1))
    (he : -1022 ≤ e) : ulpExp x = e - 52 := by
  have hx : 0 < x := lt_of_lt_of_le (by positivity) hlo
  unfold ulpExp
  rw [abs_of_pos hx]
  have h1 : e ≤ Int.log 2 x :=
    (Int.zpow_le_iff_le_log (by norm_num) hx).1 (by exact_mod_cast hlo)
  have h2 : Int.log 2 x < e + 1 :=
    (Int.lt_zpow_iff_log_lt (by norm_num) hx).1 (by exact_mod_cast hhi)
  have : Int.log 2 x = e := by omega
  rw [this, max_eq_left he]

theorem rnd64_eq (x : ℚ) (e n : Int) (hlo : (2 : ℚ) ^ e ≤ x) (hhi : x < 2 ^ (e + 1))
    (he : -1022 ≤ e) (h1 : (n : ℚ) - 1 / 2 < x / 2 ^ (e - 52))
    (h2 : x / 2 ^ (e - 52) < (n : ℚ) + 1 / 2) : rnd64 x = n * 2 ^ (e - 52) := by
  unfold rnd64
  rw [ulpExp_eq x e hlo hhi he, roundHalfEven_eq n _ h1 h2]

theorem rnd64_threeTenths : rnd64 (nearestToThreeTenths * 10 ^ 6) = 300000 := by
  have e := rnd64_eq (nearestToThreeTenths * 10 ^ 6) 18 5153960755200000
    (by unfold nearestToThreeTenths; norm_num) (by unfold nearestToThreeTenths; norm_num)
    (by norm_num) (by unfold nearestToThreeTenths; norm_num)
    (by unfold nearestToThreeTenths; norm_num)
  rw [e]; norm_num

theorem isBinary64_threeTenths : isBinary64 nearestToThreeTenths := by
  unfold isBinary64
  have e := rnd64_eq nearestToThreeTenths (-2) 5404319552844595
    (by unfold nearestToThreeTenths; norm_num) (by unfold nearestToThreeTenths; norm_num)
    (by norm_num) (by unfold nearestToThreeTenths; norm_num)
    (by unfold nearestToThreeTenths; norm_num)
  rw [e]; unfold nearestToThreeTenths; norm_num

theorem fract_scaled_bounds (t : ℚ) :
    0 ≤ (t - ⌊t⌋) * 10 ^ 6 ∧ (t - ⌊t⌋) * 10 ^ 6 < 10 ^ 6 := by
  have h1 := Int.floor_le t
  have h2 := Int.lt_floor_add_one t
  constructor
  · have : 0 ≤ t - ⌊t⌋ := by linarith
    positivity
  · nlinarith

theorem rnd64_scaled_bounds (t : ℚ) :
    ((⌊(t - ⌊t⌋) * 10 ^ 6⌋ : Int) : ℚ) ≤ rnd64 ((t - ⌊t⌋) * 10 ^ 6) ∧
      rnd64 ((t - ⌊t⌋) * 10 ^ 6) ≤ ((⌊(t - ⌊t⌋) * 10 ^ 6⌋ + 1 : Int) : ℚ) := by
  obtain ⟨h0, h1⟩ := fract_scaled_bounds t
  apply rnd64_between
  · rw [abs_of_nonneg h0]
    exact lt_trans h1 (by norm_num)
  · exact Int.floor_le _
  · push_cast
    exact (Int.lt_floor_add_one _).le

theorem timevalOf_nonneg (t : ℚ) (h : 0 ≤ t) :
    timevalOf t = some ⟨⌊t⌋, ⌊rnd64 ((t - ⌊t⌋) * 10 ^ 6)⌋⟩ := by
  unfold timevalOf fmul
  have e : (1.0E6 : ℚ) = 10 ^ 6 := by norm_num
  have hr : 0 ≤ rnd64 ((t - ⌊t⌋) * 10 ^ 6) := by
    have h0 : (0 : ℚ) ≤ ((⌊(t - ⌊t⌋) * 10 ^ 6⌋ : Int) : ℚ) := by
      exact_mod_cast Int.floor_nonneg.2 (fract_scaled_bounds t).1
    exact le_trans h0 (rnd64_scaled_bounds t).1
  rw [if_neg (not_lt.2 h), fmod_one t h, e, cInt_of_nonneg t h, cInt_of_nonneg _ hr]

theorem usec_bounds (t : ℚ) :
    ⌊(t - ⌊t⌋) * 10 ^ 6⌋ ≤ ⌊rnd64 ((t - ⌊t⌋) * 10 ^ 6)⌋ ∧
      ⌊rnd64 ((t - ⌊t⌋) * 10 ^ 6)⌋ ≤ ⌊(t - ⌊t⌋) * 10 ^ 6⌋ + 1 := by
  obtain ⟨h1, h2⟩ := rnd64_scaled_bounds t
  constructor
  · exact Int.le_floor.2 h1
  · have : ((⌊rnd64 ((t - ⌊t⌋) * 10 ^ 6)⌋ : Int) : ℚ) ≤ ((⌊(t - ⌊t⌋) * 10 ^ 6⌋ + 1 : Int) : ℚ) :=
      le_trans (Int.floor_le _) h2
    exact_mod_cast this

theorem fract_of_isBinary64 (t : ℚ) (h0 : 0 ≤ t) (hb : isBinary64 t) :
    t - ⌊t⌋ ≤ 1 - 1 / 2 ^ 53 := by
  have hfl := Int.floor_le t
  have hlf := Int.lt_floor_add_one t
  by_cases hsmall : t < 1 / 2
  · have : ⌊t⌋ = 0 := Int.floor_eq_iff.2 ⟨by simpa using h0, by norm_num; linarith⟩
    rw [this]; norm_num; linarith
  · have hhalf : (1 : ℚ) / 2 ≤ t := not_lt.1 hsmall
    have hpos : 0 < t := by linarith
    have hlog : -1 ≤ Int.log 2 t := by
      apply (Int.zpow_le_iff_le_log (by norm_num) hpos).1
      norm_num; linarith
    unfold isBinary64 rnd64 at hb
    have hu : ulpExp t = Int.log 2 t - 52 := by
      unfold ulpExp
      rw [abs_of_pos hpos, max_eq_left (by omega)]
    by_cases hbig : 52 ≤ Int.log 2 t
    · obtain ⟨k, hk⟩ : ∃ k : Nat, ulpExp t = (k : Int) := ⟨(ulpExp t).toNat, by omega⟩
      rw [hk, zpow_natCast] at hb
      have : t = ((roundHalfEven (t / 2 ^ k) * 2 ^ k : Int) : ℚ) := by
        push_cast; exact hb.symm
      have hfloor : (⌊t⌋ : ℚ) = t := by
        rw [this, Int.floor_intCast]
      rw [hfloor]; norm_num
    · obtain ⟨j, hj, hj53⟩ : ∃ j : Nat, ulpExp t = -(j : Int) ∧ j ≤ 53 :=
        ⟨(-ulpExp t).toNat, by omega, by omega⟩
      rw [hj] at hb
      have hinv : (2 : ℚ) ^ (-(j : Int)) = 1 / 2 ^ j := by
        rw [zpow_neg, zpow_natCast, one_div]
      have hp : (0 : ℚ) < 2 ^ j := by positivity
      rw [hinv] at hb
      obtain ⟨m, hm0⟩ : ∃ m : Int, (m : ℚ) * (1 / 2 ^ j) = t := ⟨_, hb⟩
      have hm : t * 2 ^ j = (m : ℚ) := by
        rw [← hm0]; field_simp
      have hn : (t - ⌊t⌋) * 2 ^ j = ((m - ⌊t⌋ * 2 ^ j : Int) : ℚ) := by
        push_cast; rw [← hm]; ring
      have hlt : (t - ⌊t⌋) * 2 ^ j < ((2 ^ j : Int) : ℚ) := by
        push_cast
        have : t - ⌊t⌋ < 1 := by linarith
        nlinarith
      rw [hn] at hlt
      have hle : m - ⌊t⌋ * 2 ^ j ≤ 2 ^ j - 1 := by
        have := Int.cast_lt.1 hlt
        omega
      have hle' : (t - ⌊t⌋) * 2 ^ j ≤ 2 ^ j - 1 := by
        rw [hn]; exact_mod_cast hle
      have h53 : (2 : ℚ) ^ j ≤ 2 ^ 53 := pow_le_pow_right₀ (by norm_num) hj53
      have hfr : t - ⌊t⌋ ≤ 1 - 1 / 2 ^ j := by
        rw [le_sub_comm, div_le_iff₀ hp]
        have : (1 - (t - ⌊t⌋)) * 2 ^ j = 2 ^ j - (t - ⌊t⌋) * 2 ^ j := by ring
        linarith
      have : (1 : ℚ) / 2 ^ 53 ≤ 1 / 2 ^ j := by
        apply one_div_le_one_div_of_le hp h53
      linarith

theorem rnd64_scaled_lt (f : ℚ) (h0 : 0 ≤ f) (h1 : f ≤ 1 - 1 / 2 ^ 53) :
    rnd64 (f * 10 ^ 6) < 10 ^ 6 := by
  have hx0 : 0 ≤ f * 10 ^ 6 := by positivity
  have hx1 : f * 10 ^ 6 ≤ 10 ^ 6 - 10 ^ 6 / 2 ^ 53 := by nlinarith
  by_cases hs : f * 10 ^ 6 < 2 ^ 19
  · have := (rnd64_between (f * 10 ^ 6) 0 524288
      (by rw [abs_of_nonneg hx0]; exact lt_trans hs (by norm_num))
      (by simpa using hx0) (by push_cast; linarith)).2
    exact lt_of_le_of_lt this (by norm_num)
  · have hlo : (2 : ℚ) ^ (19 : Int) ≤ f * 10 ^ 6 := by
      have := not_lt.1 hs
      norm_num at this ⊢; exact this
    have hhi : f * 10 ^ 6 < (2 : ℚ) ^ ((19 : Int) + 1) := by
      norm_num; linarith
    unfold rnd64
    rw [ulpExp_eq _ 19 hlo hhi (by norm_num)]
    have hz : (2 : ℚ) ^ ((19 : Int) - 52) = 1 / 2 ^ 33 := by norm_num
    rw [hz]
    have hR := roundHalfEven_le_pred (10 ^ 6 * 2 ^ 33) (f * 10 ^ 6 / (1 / 2 ^ 33)) (by
      rw [div_div_eq_mul_div, div_one]
      push_cast
      nlinarith)
    have hR' : (roundHalfEven (f * 10 ^ 6 / (1 / 2 ^ 33)) : ℚ) ≤
        ((10 ^ 6 * 2 ^ 33 - 1 : Int) : ℚ) := by exact_mod_cast hR
    push_cast at hR'
    nlinarith

theorem usec_le_of_isBinary64 (t : ℚ) (h0 : 0 ≤ t) (hb : isBinary64 t) :
    ⌊rnd64 ((t - ⌊t⌋) * 10 ^ 6)⌋ ≤ 999999 := by
  have hf0 : 0 ≤ t - ⌊t⌋ := by have := Int.floor_le t; linarith
  have := rnd64_scaled_lt (t - ⌊t⌋) hf0 (fract_of_isBinary64 t h0 hb)
  have : ⌊rnd64 ((t - ⌊t⌋) * 10 ^ 6)⌋ < 1000000 := Int.floor_lt.2 (by push_cast; linarith)
  omega

theorem wait_spy {σ : Type} (os : OS σ) (prhs : List MxArg) (w : σ) (l : List Call) :
    wait (spy os) prhs (w, l) =
      ((wait os prhs w).1, ((wait os prhs w).2,
        l ++ [Call.select (sockOf prhs + 1) (FD_SET (sockOf prhs) FD_ZERO) FD_ZERO
          (FD_SET (sockOf prhs) FD_ZERO) (timevalOf (timeoutOf prhs))])) := rfl

theorem readable_spy {σ : Type} (os : OS σ) (prhs : List MxArg) (w : σ) (l : List Call) :
    readable (spy os) prhs (w, l) = readable os prhs w := rfl

theorem receive_spy {σ : Type} (os : OS σ) (prhs : List MxArg) (w : σ) (l : List Call) :
    receive (spy os) prhs (w, l) =
      ((receive os prhs w).1, ((receive os prhs w).2,
        l ++ [Call.select (sockOf prhs + 1) (FD_SET (sockOf prhs) FD_ZERO) FD_ZERO
          (FD_SET (sockOf prhs) FD_ZERO) (timevalOf (timeoutOf prhs))] ++
          [Call.recv (sockOf prhs) MAX_UDP_PACKET_SIZE 0])) := rfl

theorem spy_select_timeouts {σ : Type} (os : OS σ) (junk : Nat → Byte) (prhs : List MxArg)
    (w : σ) (hv : validArgs prhs) :
    selectTimeouts (mexFunction (spy os) junk prhs (w, [])).os.2 =
      [timevalOf (timeoutOf prhs)] := by
  cases hr : readable os prhs w with
  | false =>
    rw [mexFunction_idle (spy os) junk prhs (w, []) hv (by rw [readable_spy]; exact hr),
      wait_spy]
    rfl
  | true =>
    rw [mexFunction_ready (spy os) junk prhs (w, []) hv (by rw [readable_spy]; exact hr),
      receive_spy]
    rfl

theorem spy_plhs0 {σ : Type} (os : OS σ) (junk : Nat → Byte) (prhs : List MxArg) (w : σ) :
    (mexFunction (spy os) junk prhs (w, [])).plhs0 = (mexFunction os junk prhs w).plhs0 := by
  by_cases hv : validArgs prhs
  · cases hr : readable os prhs w with
    | false =>
      rw [mexFunction_idle (spy os) junk prhs (w, []) hv (by rw [readable_spy]; exact hr),
        mexFunction_idle os junk prhs w hv hr]
    | true =>
      rw [mexFunction_ready (spy os) junk prhs (w, []) hv (by rw [readable_spy]; exact hr),
        mexFunction_ready os junk prhs w hv hr, receive_spy]
  · obtain ⟨m1, e1⟩ := mexFunction_invalid (spy os) junk prhs (w, []) hv
    obtain ⟨m2, e2⟩ := mexFunction_invalid os junk prhs w hv
    rw [e1, e2]

theorem isBinary64_fiveHalves : isBinary64 (5 / 2) := by
  unfold isBinary64
  have e := rnd64_eq (5 / 2) 1 5629499534213120
    (by norm_num) (by norm_num) (by norm_num) (by norm_num) (by norm_num)
  rw [e]; norm_num

theorem usec_near (t : ℚ) :
    |(t - ⌊t⌋) * 10 ^ 6 - (⌊rnd64 ((t - ⌊t⌋) * 10 ^ 6)⌋ : ℚ)| < 1 := by
  obtain ⟨h1, h2⟩ := rnd64_scaled_bounds t
  obtain ⟨h3, h4⟩ := usec_bounds t
  have hfl := Int.floor_le ((t - ⌊t⌋) * 10 ^ 6)
  have hlf := Int.lt_floor_add_one ((t - ⌊t⌋) * 10 ^ 6)
  have h3' : ((⌊(t - ⌊t⌋) * 10 ^ 6⌋ : Int) : ℚ) ≤ (⌊rnd64 ((t - ⌊t⌋) * 10 ^ 6)⌋ : ℚ) := by
    exact_mod_cast h3
  have h4' : (⌊rnd64 ((t - ⌊t⌋) * 10 ^ 6)⌋ : ℚ) ≤ ((⌊(t - ⌊t⌋) * 10 ^ 6⌋ : Int) : ℚ) + 1 := by
    exact_mod_cast h4
  rw [abs_lt]
  constructor
  · rcases hfl.lt_or_eq with hne | heq
    · linarith
    · have hx : |(t - ⌊t⌋) * 10 ^ 6| < 2 ^ 53 := by
        obtain ⟨a, b⟩ := fract_scaled_bounds t
        rw [abs_of_nonneg a]; exact lt_trans b (by norm_num)
      obtain ⟨r1, r2⟩ := rnd64_between ((t - ⌊t⌋) * 10 ^ 6) ⌊(t - ⌊t⌋) * 10 ^ 6⌋
        ⌊(t - ⌊t⌋) * 10 ^ 6⌋ hx hfl heq.symm.le
      have : (⌊rnd64 ((t - ⌊t⌋) * 10 ^ 6)⌋ : ℚ) ≤ rnd64 ((t - ⌊t⌋) * 10 ^ 6) := Int.floor_le _
      linarith
  · linarith

theorem timevalOf_threeTenths : timevalOf nearestToThreeTenths = some ⟨0, 300000⟩ := by
  have h0 : (0 : ℚ) ≤ nearestToThreeTenths := by unfold nearestToThreeTenths; norm_num
  have hf : ⌊nearestToThreeTenths⌋ = 0 :=
    Int.floor_eq_iff.2 ⟨by simpa using h0, by unfold nearestToThreeTenths; norm_num⟩
  rw [timevalOf_nonneg _ h0, hf]
  have : rnd64 ((nearestToThreeTenths - ((0 : Int) : ℚ)) * 10 ^ 6) = 300000 := by
    rw [Int.cast_zero, sub_zero]; exact rnd64_threeTenths
  rw [this]
  have : ⌊(300000 : ℚ)⌋ = 300000 := by
    exact_mod_cast Int.floor_intCast (300000 : Int)
  rw [this]

/-! ## The claims -/

/-- Claim C1.  When the socket is readable and the single `recv` returns `n`
bytes, `n ≤ 28`, with payload `p` (the `n` bytes it stored in the scratch
buffer), `mexFunction` returns the `(n+1)`-by-`1` `uint8` array `p ++ [0]`: it
has exactly `n + 1` elements, element `k` is `p[k]` for every `k < n` whatever
the byte values are, and element `n` is `0`.  The case `n = 28` is included. -/
theorem returns_payload_then_zero {σ : Type} (os : OS σ) (junk : Nat → Byte)
    (prhs : List MxArg) (w : σ) (n : Nat) (p : List Byte)
    (hv : validArgs prhs) (hr : readable os prhs w = true)
    (hret : (receive os prhs w).1.ret = n) (hst : (receive os prhs w).1.stored = p)
    (hp : p.length = n) (h28 : n ≤ 28) :
    ∃ out, (mexFunction os junk prhs w).plhs0 = some out ∧
      out.numel = n + 1 ∧
      (∀ k, k < n → out.data[k]? = p[k]?) ∧
      out.data[n]? = some 0 ∧
      out = ⟨(n : Int) + 1, 1, ClassID.mxUINT8_CLASS, p ++ [0]⟩ := by
  have hdata : (bufAfter p).take n ++ [0] = p ++ [0] := by
    rw [take_bufAfter p n (by omega) h28, List.take_of_length_le (by omega)]
  refine ⟨_, ready_plhs0 os junk prhs w hv hr n hret h28, ?_, ?_, ?_, ?_⟩
  · simp [MxArray.numel, hst, hdata, hp]
  · intro k hk
    simp only [hst, hdata]
    rw [List.getElem?_append_left (by omega)]
  · simp only [hst, hdata]
    rw [List.getElem?_append_right (by omega)]
    simp [hp]
  · simp only [hst, hdata]

/-- A three-byte datagram with a zero byte in the middle. -/
theorem returns_payload_then_zero_witness :
    ∃ out, (mexFunction queueOS (fun _ => 255) [⟨true, 5⟩] [[7, 0, 9]]).plhs0 = some out ∧
      out.numel = 3 + 1 ∧
      (∀ k, k < 3 → out.data[k]? = ([7, 0, 9] : List Byte)[k]?) ∧
      out.data[3]? = some 0 ∧
      out = ⟨((3 : Nat) : Int) + 1, 1, ClassID.mxUINT8_CLASS, [7, 0, 9] ++ [0]⟩ :=
  returns_payload_then_zero queueOS (fun _ => 255) [⟨true, 5⟩] [[7, 0, 9]] 3 [7, 0, 9]
    (by decide) (by decide) (by decide) (by decide) (by decide) (by decide)

/-- Claim C2.  For every valid argument list and every outcome of the wait in
which the socket is not marked readable, `mexFunction` returns an array with no
element and makes no `recv` call. -/
theorem not_readable_returns_empty {σ : Type} (os : OS σ) (junk : Nat → Byte)
    (prhs : List MxArg) (w : σ) (hv : validArgs prhs) (hr : readable os prhs w = false) :
    ∃ out, (mexFunction os junk prhs w).plhs0 = some out ∧ out.numel = 0 ∧
      callsRecv (mexFunction os junk prhs w).calls = false := by
  rw [mexFunction_idle os junk prhs w hv hr]
  exact ⟨_, rfl, rfl, rfl⟩

/-- An empty queue: the wait ends with the socket unmarked. -/
theorem not_readable_returns_empty_witness :
    validArgs [⟨true, 5⟩] ∧ readable queueOS [⟨true, 5⟩] [] = false ∧
      ∃ out, (mexFunction queueOS (fun _ => 255) [⟨true, 5⟩] []).plhs0 = some out ∧
        out.numel = 0 ∧
        callsRecv (mexFunction queueOS (fun _ => 255) [⟨true, 5⟩] []).calls = false :=
  ⟨by decide, by decide,
    not_readable_returns_empty queueOS (fun _ => 255) [⟨true, 5⟩] [] (by decide) (by decide)⟩

/-- Claim C3.  `mexFunction` leaves `plhs[0]` unassigned exactly when the
argument list is empty, or the first argument is not numeric, or a second
argument is present and not numeric.  In that case it has printed a diagnostic
and returned before any `select` or `recv`, with the system untouched.  In
particular a non-numeric second argument gives no result whatever the first
argument is. -/
theorem no_result_iff_bad_arguments {σ : Type} (os : OS σ) (junk : Nat → Byte)
    (prhs : List MxArg) (w : σ) :
    ((mexFunction os junk prhs w).plhs0 = none ↔
        (prhs = [] ∨ mxIsNumeric (arg prhs 0) = false ∨
          (1 < prhs.length ∧ mxIsNumeric (arg prhs 1) = false))) ∧
      ((mexFunction os junk prhs w).plhs0 = none →
        callsSelect (mexFunction os junk prhs w).calls = false ∧
        callsRecv (mexFunction os junk prhs w).calls = false ∧
        callsPrintf (mexFunction os junk prhs w).calls = true ∧
        (mexFunction os junk prhs w).os = w) ∧
      (1 < prhs.length ∧ mxIsNumeric (arg prhs 1) = false →
        (mexFunction os junk prhs w).plhs0 = none) := by
  have hbad : ¬ validArgs prhs ↔ (prhs = [] ∨ mxIsNumeric (arg prhs 0) = false ∨
          (1 < prhs.length ∧ mxIsNumeric (arg prhs 1) = false)) := by
    unfold validArgs
    cases prhs with
    | nil => simp
    | cons a l =>
      simp only [List.length_cons, reduceCtorEq, false_or]
      by_cases h0 : mxIsNumeric (arg (a :: l) 0) = true
      · by_cases h1 : mxIsNumeric (arg (a :: l) 1) = true
        · simp [h0, h1]
        · simp [h0, h1, List.length_pos]
      · simp [h0]
  have hnone : ¬ validArgs prhs → (mexFunction os junk prhs w).plhs0 = none ∧
      callsSelect (mexFunction os junk prhs w).calls = false ∧
        callsRecv (mexFunction os junk prhs w).calls = false ∧
        callsPrintf (mexFunction os junk prhs w).calls = true ∧
        (mexFunction os junk prhs w).os = w := by
    intro h
    obtain ⟨msg, e⟩ := mexFunction_invalid os junk prhs w h
    rw [e]
    exact ⟨rfl, rfl, rfl, rfl, rfl⟩
  have hsome : validArgs prhs → (mexFunction os junk prhs w).plhs0 ≠ none := by
    intro h
    cases hr : readable os prhs w with
    | false => rw [mexFunction_idle os junk prhs w h hr]; simp
    | true => rw [mexFunction_ready os junk prhs w h hr]; simp
  refine ⟨⟨fun h => hbad.1 (fun hv => hsome hv h), fun h => (hnone (hbad.2 h)).1⟩, ?_, ?_⟩
  · intro h
    exact (hnone (fun hv => hsome hv h)).2
  · intro h
    exact (hnone (hbad.2 (Or.inr (Or.inr h)))).1

/-- Claim C4.  For every valid argument list exactly one `select` call reaches
the system, and the same call stands in the trace of the run.  Its timeout
argument is the null pointer exactly when the timeout argument is absent or
negative, and every supplied timeout `≥ 0` (zero included) is passed as a
`timeval`.  The call is read off the observed system `spy os`, that is, from
the arguments `select` was applied to. -/
theorem select_waits_forever_iff {σ : Type} (os : OS σ) (junk : Nat → Byte)
    (prhs : List MxArg) (w : σ) (hv : validArgs prhs) :
    ∃ t, selectTimeouts (mexFunction (spy os) junk prhs (w, [])).os.2 = [t] ∧
      selectTimeouts (mexFunction os junk prhs w).calls = [t] ∧
      (t = none ↔ (prhs.length ≤ 1 ∨ mxGetScalar (arg prhs 1) < 0)) ∧
      (1 < prhs.length → 0 ≤ mxGetScalar (arg prhs 1) → ∃ tv, t = some tv) := by
  refine ⟨timevalOf (timeoutOf prhs), spy_select_timeouts os junk prhs w hv,
    select_timeout_eq os junk prhs w hv, ?_, ?_⟩
  · unfold timevalOf timeoutOf
    by_cases h : 1 < prhs.length
    · have h' : (prhs.length : Int) > 1 := by omega
      simp only [h', if_true]
      by_cases hneg : mxGetScalar (arg prhs 1) < 0
      · simp [hneg]
      · simp [hneg]; omega
    · have h' : ¬ (prhs.length : Int) > 1 := by omega
      simp only [h', if_false]
      simp; omega
  · intro h hnn
    unfold timevalOf timeoutOf
    have h' : (prhs.length : Int) > 1 := by omega
    simp only [h', if_true, not_lt.2 hnn, if_false]
    exact ⟨_, rfl⟩

/-- The three cases: no timeout argument, a negative one, and zero. -/
theorem select_waits_forever_iff_witness :
    (∃ t, selectTimeouts (mexFunction (spy queueOS) (fun _ => 255) [⟨true, 5⟩] ([], [])).os.2
          = [t] ∧
        selectTimeouts (mexFunction queueOS (fun _ => 255) [⟨true, 5⟩] []).calls = [t] ∧
        (t = none ↔ (([⟨true, 5⟩] : List MxArg).length ≤ 1 ∨
          mxGetScalar (arg [⟨true, 5⟩] 1) < 0)) ∧
        (1 < ([⟨true, 5⟩] : List MxArg).length → 0 ≤ mxGetScalar (arg [⟨true, 5⟩] 1) →
          ∃ tv, t = some tv)) ∧
      (∃ t, selectTimeouts
            (mexFunction (spy queueOS) (fun _ => 255) [⟨true, 5⟩, ⟨true, -3⟩] ([], [])).os.2
          = [t] ∧
        selectTimeouts (mexFunction queueOS (fun _ => 255) [⟨true, 5⟩, ⟨true, -3⟩] []).calls
          = [t] ∧
        (t = none ↔ (([⟨true, 5⟩, ⟨true, -3⟩] : List MxArg).length ≤ 1 ∨
          mxGetScalar (arg [⟨true, 5⟩, ⟨true, -3⟩] 1) < 0)) ∧
        (1 < ([⟨true, 5⟩, ⟨true, -3⟩] : List MxArg).length →
          0 ≤ mxGetScalar (arg [⟨true, 5⟩, ⟨true, -3⟩] 1) → ∃ tv, t = some tv)) ∧
      (∃ t, selectTimeouts
            (mexFunction (spy queueOS) (fun _ => 255) [⟨true, 5⟩, ⟨true, 0⟩] ([], [])).os.2
          = [t] ∧
        selectTimeouts (mexFunction queueOS (fun _ => 255) [⟨true, 5⟩, ⟨true, 0⟩] []).calls
          = [t] ∧
        (t = none ↔ (([⟨true, 5⟩, ⟨true, 0⟩] : List MxArg).length ≤ 1 ∨
          mxGetScalar (arg [⟨true, 5⟩, ⟨true, 0⟩] 1) < 0)) ∧
        (1 < ([⟨true, 5⟩, ⟨true, 0⟩] : List MxArg).length →
          0 ≤ mxGetScalar (arg [⟨true, 5⟩, ⟨true, 0⟩] 1) → ∃ tv, t = some tv)) :=
  ⟨select_waits_forever_iff queueOS (fun _ => 255) [⟨true, 5⟩] [] (by decide),
    select_waits_forever_iff queueOS (fun _ => 255) [⟨true, 5⟩, ⟨true, -3⟩] [] (by decide),
    select_waits_forever_iff queueOS (fun _ => 255) [⟨true, 5⟩, ⟨true, 0⟩] [] (by decide)⟩

/-- Claim C5.  On a socket modelled as a queue of datagrams `d1 :: d2 :: rest`,
with `d1` and `d2` of at most 28 bytes, two consecutive calls return `d1 ++ [0]`
and then `d2 ++ [0]`, and leave the queue equal to `rest`.  This holds whatever
the scratch buffer holds on entry to either call, so no byte of `d1` shows up in
the second result. -/
theorem two_calls_two_datagrams (junk1 junk2 : Nat → Byte) (prhs1 prhs2 : List MxArg)
    (d1 d2 : List Byte) (rest : List (List Byte))
    (hv1 : validArgs prhs1) (hv2 : validArgs prhs2)
    (h1 : d1.length ≤ 28) (h2 : d2.length ≤ 28) :
    (mexFunction queueOS junk1 prhs1 (d1 :: d2 :: rest)).plhs0 =
        some ⟨(d1.length : Int) + 1, 1, ClassID.mxUINT8_CLASS, d1 ++ [0]⟩ ∧
      (mexFunction queueOS junk2 prhs2
          (mexFunction queueOS junk1 prhs1 (d1 :: d2 :: rest)).os).plhs0 =
        some ⟨(d2.length : Int) + 1, 1, ClassID.mxUINT8_CLASS, d2 ++ [0]⟩ ∧
      (mexFunction queueOS junk2 prhs2
          (mexFunction queueOS junk1 prhs1 (d1 :: d2 :: rest)).os).os = rest := by
  obtain ⟨a1, a2, _⟩ := queue_mexFunction junk1 prhs1 hv1 d1 (d2 :: rest)
  obtain ⟨b1, b2, _⟩ := queue_mexFunction junk2 prhs2 hv2 d2 rest
  rw [a2, a1, b1, b2, List.take_of_length_le (by omega), List.take_of_length_le (by omega)]
  exact ⟨rfl, rfl, rfl⟩

/-- A three-byte datagram followed by a one-byte datagram. -/
theorem two_calls_two_datagrams_witness :
    (mexFunction queueOS (fun _ => 255) [⟨true, 5⟩] ([1, 2, 3] :: [4] :: [])).plhs0 =
        some ⟨(([1, 2, 3] : List Byte).length : Int) + 1, 1, ClassID.mxUINT8_CLASS,
          [1, 2, 3] ++ [0]⟩ ∧
      (mexFunction queueOS (fun _ => 255) [⟨true, 5⟩]
          (mexFunction queueOS (fun _ => 255) [⟨true, 5⟩] ([1, 2, 3] :: [4] :: [])).os).plhs0 =
        some ⟨(([4] : List Byte).length : Int) + 1, 1, ClassID.mxUINT8_CLASS, [4] ++ [0]⟩ ∧
      (mexFunction queueOS (fun _ => 255) [⟨true, 5⟩]
          (mexFunction queueOS (fun _ => 255) [⟨true, 5⟩] ([1, 2, 3] :: [4] :: [])).os).os = [] :=
  two_calls_two_datagrams (fun _ => 255) (fun _ => 255) [⟨true, 5⟩] [⟨true, 5⟩]
    [1, 2, 3] [4] [] (by decide) (by decide) (by decide) (by decide)

/-- Claim C6, refuted as stated.  The timeout `5404319552844595 / 2^54`, the
binary64 number nearest to `0.3`, lies in `[0, 2^31)`, yet the `timeval` that
reaches `select` is `{0, 300000}`: the product `fmod(timeout,1.0)*1.0E6` rounds
up to `300000`, while `⌊(t - ⌊t⌋) * 10^6⌋ = ⌊t * 10^6⌋ = 299999`, and the split
`0 + 300000 / 10^6` exceeds `t`. -/
theorem timeval_exact_split_fails :
    0 ≤ nearestToThreeTenths ∧ nearestToThreeTenths < 2 ^ 31 ∧
      isBinary64 nearestToThreeTenths ∧
      selectTimeouts (mexFunction (spy queueOS) (fun _ => 255)
        [⟨true, 5⟩, ⟨true, nearestToThreeTenths⟩] ([], [])).os.2 = [some ⟨0, 300000⟩] ∧
      ⌊(nearestToThreeTenths - ⌊nearestToThreeTenths⌋) * 10 ^ 6⌋ = 299999 ∧
      ⌊nearestToThreeTenths * 10 ^ 6⌋ = 299999 ∧
      (300000 : Int) ≠ ⌊(nearestToThreeTenths - ⌊nearestToThreeTenths⌋) * 10 ^ 6⌋ ∧
      (0 : Int) * 10 ^ 6 + 300000 ≠ ⌊nearestToThreeTenths * 10 ^ 6⌋ ∧
      nearestToThreeTenths < ((0 : Int) : ℚ) + ((300000 : Int) : ℚ) / 10 ^ 6 := by
  have h0 : (0 : ℚ) ≤ nearestToThreeTenths := by unfold nearestToThreeTenths; norm_num
  have hf : ⌊nearestToThreeTenths⌋ = 0 :=
    Int.floor_eq_iff.2 ⟨by simpa using h0, by unfold nearestToThreeTenths; norm_num⟩
  have hF : ⌊nearestToThreeTenths * 10 ^ 6⌋ = 299999 :=
    Int.floor_eq_iff.2 ⟨by unfold nearestToThreeTenths; norm_num,
      by unfold nearestToThreeTenths; norm_num⟩
  have hx : ⌊(nearestToThreeTenths - ⌊nearestToThreeTenths⌋) * 10 ^ 6⌋ = 299999 := by
    rw [hf, Int.cast_zero, sub_zero]; exact hF
  refine ⟨h0, by unfold nearestToThreeTenths; norm_num, isBinary64_threeTenths, ?_, hx, hF,
    by rw [hx]; norm_num, by rw [hF]; norm_num, by unfold nearestToThreeTenths; norm_num⟩
  rw [spy_select_timeouts queueOS _ _ _ (by decide)]
  have : timeoutOf [⟨true, 5⟩, ⟨true, nearestToThreeTenths⟩] = nearestToThreeTenths := rfl
  rw [this, timevalOf_threeTenths]

/-- Claim C6, amended.  For a supplied timeout `t`, a binary64 number with
`0 ≤ t < 2^31`, the `timeval` that reaches `select` has `tv_sec = ⌊t⌋` and
`tv_usec` the integer part of the binary64 product `(t - ⌊t⌋) * 10^6`.  That is
`⌊(t - ⌊t⌋) * 10^6⌋` or one more, so `0 ≤ tv_usec ≤ 999999`,
`tv_sec * 10^6 + tv_usec` is `⌊t * 10^6⌋` or one more, the split differs from
`t` by less than one microsecond (on either side), and `tv_sec` fits in an
`int`. -/
theorem timeval_within_one_microsecond {σ : Type} (os : OS σ) (junk : Nat → Byte)
    (prhs : List MxArg) (w : σ) (t : ℚ) (hv : validArgs prhs) (h2 : 1 < prhs.length)
    (ht : mxGetScalar (arg prhs 1) = t) (hb : isBinary64 t) (h0 : 0 ≤ t) (hlt : t < 2 ^ 31) :
    ∃ tv, selectTimeouts (mexFunction (spy os) junk prhs (w, [])).os.2 = [some tv] ∧
      tv.tv_sec = ⌊t⌋ ∧
      tv.tv_usec = ⌊rnd64 ((t - ⌊t⌋) * 10 ^ 6)⌋ ∧
      (tv.tv_usec = ⌊(t - ⌊t⌋) * 10 ^ 6⌋ ∨ tv.tv_usec = ⌊(t - ⌊t⌋) * 10 ^ 6⌋ + 1) ∧
      0 ≤ tv.tv_usec ∧ tv.tv_usec ≤ 999999 ∧
      (tv.tv_sec * 10 ^ 6 + tv.tv_usec = ⌊t * 10 ^ 6⌋ ∨
        tv.tv_sec * 10 ^ 6 + tv.tv_usec = ⌊t * 10 ^ 6⌋ + 1) ∧
      |t - ((tv.tv_sec : ℚ) + (tv.tv_usec : ℚ) / 10 ^ 6)| < 1 / 10 ^ 6 ∧
      0 ≤ tv.tv_sec ∧ tv.tv_sec < 2 ^ 31 := by
  have hto : timeoutOf prhs = t := by
    unfold timeoutOf
    have : (prhs.length : Int) > 1 := by omega
    rw [if_pos this, ht]
  have hsplit : ⌊(t - ⌊t⌋) * 10 ^ 6⌋ = ⌊t * 10 ^ 6⌋ - ⌊t⌋ * 10 ^ 6 := by
    have : (t - ⌊t⌋) * 10 ^ 6 = t * 10 ^ 6 - ((⌊t⌋ * 10 ^ 6 : Int) : ℚ) := by
      push_cast; ring
    rw [this, Int.floor_sub_int]
  obtain ⟨hu1, hu2⟩ := usec_bounds t
  have hx0 : 0 ≤ ⌊(t - ⌊t⌋) * 10 ^ 6⌋ := Int.floor_nonneg.2 (fract_scaled_bounds t).1
  have hor : ⌊rnd64 ((t - ⌊t⌋) * 10 ^ 6)⌋ = ⌊(t - ⌊t⌋) * 10 ^ 6⌋ ∨
      ⌊rnd64 ((t - ⌊t⌋) * 10 ^ 6)⌋ = ⌊(t - ⌊t⌋) * 10 ^ 6⌋ + 1 := by omega
  refine ⟨⟨⌊t⌋, ⌊rnd64 ((t - ⌊t⌋) * 10 ^ 6)⌋⟩, ?_, rfl, rfl, hor, ?_,
    usec_le_of_isBinary64 t h0 hb, ?_, ?_, Int.floor_nonneg.2 h0, ?_⟩
  · rw [spy_select_timeouts os junk prhs w hv, hto, timevalOf_nonneg t h0]
  · show 0 ≤ ⌊rnd64 ((t - ⌊t⌋) * 10 ^ 6)⌋
    omega
  · show ⌊t⌋ * 10 ^ 6 + ⌊rnd64 ((t - ⌊t⌋) * 10 ^ 6)⌋ = ⌊t * 10 ^ 6⌋ ∨
      ⌊t⌋ * 10 ^ 6 + ⌊rnd64 ((t - ⌊t⌋) * 10 ^ 6)⌋ = ⌊t * 10 ^ 6⌋ + 1
    rcases hor with h | h
    · left; rw [h, hsplit]; ring
    · right; rw [h, hsplit]; ring
  · show |t - ((⌊t⌋ : ℚ) + (⌊rnd64 ((t - ⌊t⌋) * 10 ^ 6)⌋ : ℚ) / 10 ^ 6)| < 1 / 10 ^ 6
    have hn := usec_near t
    have e : t - ((⌊t⌋ : ℚ) + (⌊rnd64 ((t - ⌊t⌋) * 10 ^ 6)⌋ : ℚ) / 10 ^ 6) =
        ((t - ⌊t⌋) * 10 ^ 6 - (⌊rnd64 ((t - ⌊t⌋) * 10 ^ 6)⌋ : ℚ)) / 10 ^ 6 := by
      rw [eq_div_iff (by positivity)]; ring
    rw [e, abs_div, abs_of_pos (by positivity : (0 : ℚ) < 10 ^ 6)]
    exact div_lt_div_of_pos_right hn (by positivity)
  · show ⌊t⌋ < 2 ^ 31
    apply Int.floor_lt.2
    exact_mod_cast hlt

/-- A timeout of two and a half seconds. -/
theorem timeval_within_one_microsecond_witness :
    ∃ tv, selectTimeouts (mexFunction (spy queueOS) (fun _ => 255)
        [⟨true, 5⟩, ⟨true, 5 / 2⟩] ([], [])).os.2 = [some tv] ∧
      tv.tv_sec = ⌊(5 / 2 : ℚ)⌋ ∧
      tv.tv_usec = ⌊rnd64 (((5 / 2 : ℚ) - ⌊(5 / 2 : ℚ)⌋) * 10 ^ 6)⌋ ∧
      (tv.tv_usec = ⌊((5 / 2 : ℚ) - ⌊(5 / 2 : ℚ)⌋) * 10 ^ 6⌋ ∨
        tv.tv_usec = ⌊((5 / 2 : ℚ) - ⌊(5 / 2 : ℚ)⌋) * 10 ^ 6⌋ + 1) ∧
      0 ≤ tv.tv_usec ∧ tv.tv_usec ≤ 999999 ∧
      (tv.tv_sec * 10 ^ 6 + tv.tv_usec = ⌊(5 / 2 : ℚ) * 10 ^ 6⌋ ∨
        tv.tv_sec * 10 ^ 6 + tv.tv_usec = ⌊(5 / 2 : ℚ) * 10 ^ 6⌋ + 1) ∧
      |(5 / 2 : ℚ) - ((tv.tv_sec : ℚ) + (tv.tv_usec : ℚ) / 10 ^ 6)| < 1 / 10 ^ 6 ∧
      0 ≤ tv.tv_sec ∧ tv.tv_sec < 2 ^ 31 :=
  timeval_within_one_microsecond queueOS (fun _ => 255) [⟨true, 5⟩, ⟨true, 5 / 2⟩] [] (5 / 2)
    (by decide) (by decide) rfl isBinary64_fiveHalves (by norm_num) (by norm_num)

/-- Claim C8.  For every valid argument list whose `recv`, if reached, returns
`r` with `0 ≤ r ≤ 28`: a result is returned, it has no element exactly when the
socket was not marked readable, and after a receive it has `r + 1 ≥ 1` elements
(for `r = 0` it is the single byte `[0]`). -/
theorem empty_result_iff_not_readable {σ : Type} (os : OS σ) (junk : Nat → Byte)
    (prhs : List MxArg) (w : σ) (hv : validArgs prhs)
    (hsucc : readable os prhs w = true →
      0 ≤ (receive os prhs w).1.ret ∧ (receive os prhs w).1.ret ≤ 28) :
    ∃ out, (mexFunction os junk prhs w).plhs0 = some out ∧
      (out.numel = 0 ↔ readable os prhs w = false) ∧
      (readable os prhs w = true →
        (out.numel : Int) = (receive os prhs w).1.ret + 1 ∧ 1 ≤ out.numel ∧
        ((receive os prhs w).1.ret = 0 → out.data = [0])) := by
  cases hr : readable os prhs w with
  | false =>
    rw [mexFunction_idle os junk prhs w hv hr]
    exact ⟨_, rfl, by simp [MxArray.numel], by simp⟩
  | true =>
    obtain ⟨h0, h28⟩ := hsucc hr
    obtain ⟨n, hn⟩ := Int.eq_ofNat_of_zero_le h0
    have hn28 : n ≤ 28 := by omega
    refine ⟨_, ready_plhs0 os junk prhs w hv hr n hn hn28, ?_, ?_⟩
    · simp [MxArray.numel]
    · intro _
      have hl : ((bufAfter (receive os prhs w).1.stored).take n).length = n := by
        rw [List.length_take, length_bufAfter]; omega
      refine ⟨by simp [MxArray.numel, hl, hn], by simp [MxArray.numel], ?_⟩
      intro hz
      have : n = 0 := by omega
      subst this
      simp

/-- A two-byte datagram. -/
theorem empty_result_iff_not_readable_witness :
    ∃ out, (mexFunction queueOS (fun _ => 255) [⟨true, 5⟩] [[1, 2]]).plhs0 = some out ∧
      (out.numel = 0 ↔ readable queueOS [⟨true, 5⟩] [[1, 2]] = false) ∧
      (readable queueOS [⟨true, 5⟩] [[1, 2]] = true →
        (out.numel : Int) = (receive queueOS [⟨true, 5⟩] [[1, 2]]).1.ret + 1 ∧ 1 ≤ out.numel ∧
        ((receive queueOS [⟨true, 5⟩] [[1, 2]]).1.ret = 0 → out.data = [0])) :=
  empty_result_iff_not_readable queueOS (fun _ => 255) [⟨true, 5⟩] [[1, 2]] (by decide)
    (fun _ => by decide)

/-- Claim C9.  `mexFunction` does not look at what `recv` returned.  When the
socket is readable and `recv` returns the failure value `-1`, no diagnostic is
printed and the receive path runs to its end: the result is created with
`-1 + 1 = 0` elements, the copy loop reads no byte of `buf`, and the only access
to the result is the terminator write at index `-1`, outside its zero
elements. -/
theorem recv_failure_not_inspected {σ : Type} (os : OS σ) (junk : Nat → Byte)
    (prhs : List MxArg) (w : σ) (hv : validArgs prhs) (hr : readable os prhs w = true)
    (hret : (receive os prhs w).1.ret = -1) :
    callsPrintf (mexFunction os junk prhs w).calls = false ∧
      callsRecv (mexFunction os junk prhs w).calls = true ∧
      (mexFunction os junk prhs w).plhs0 = some ⟨0, 1, ClassID.mxUINT8_CLASS, []⟩ ∧
      accessesOf Region.cdata (mexFunction os junk prhs w).accesses =
        [⟨Region.cdata, true, -1, 0⟩] ∧
      (∀ a ∈ (mexFunction os junk prhs w).accesses, a.region = Region.buf → a.write = true) ∧
      ¬ (⟨Region.cdata, true, -1, 0⟩ : Access).inBounds := by
  rw [mexFunction_ready os junk prhs w hv hr, hret]
  refine ⟨rfl, rfl, by simp, ?_, ?_, by decide⟩
  · show accessesOf Region.cdata (zeroAccesses 28 ++ copyAccesses (-1 + 1 : Int).toNat
      (-1 : Int).toNat ++ [⟨Region.cdata, true, -1, (-1 + 1 : Int).toNat⟩]) = _
    decide
  · show ∀ a ∈ zeroAccesses 28 ++ copyAccesses (-1 + 1 : Int).toNat
      (-1 : Int).toNat ++ [⟨Region.cdata, true, -1, (-1 + 1 : Int).toNat⟩], _
    decide

/-- A readable socket whose `recv` fails. -/
theorem recv_failure_not_inspected_witness :
    readable failingOS [⟨true, 5⟩] () = true ∧
      (receive failingOS [⟨true, 5⟩] ()).1.ret = -1 ∧
      (mexFunction failingOS (fun _ => 255) [⟨true, 5⟩] ()).plhs0 =
        some ⟨0, 1, ClassID.mxUINT8_CLASS, []⟩ :=
  ⟨by decide, by decide,
    (recv_failure_not_inspected failingOS (fun _ => 255) [⟨true, 5⟩] ()
      (by decide) (by decide) (by decide)).2.2.1⟩

/-- Claim C10.  Whenever `recv` returns `r` with `0 ≤ r ≤ 28`, every array
access of `mexFunction` is inside its array: `buf` is read or written only at
indices `0..27` of its 28 elements, and the result only at indices `0..r` of its
`r + 1` elements. -/
theorem every_access_in_bounds {σ : Type} (os : OS σ) (junk : Nat → Byte)
    (prhs : List MxArg) (w : σ) (r : Int) (hret : (receive os prhs w).1.ret = r)
    (h0 : 0 ≤ r) (h28 : r ≤ 28) :
    ∀ a ∈ (mexFunction os junk prhs w).accesses,
      a.inBounds ∧
      (a.region = Region.buf → 0 ≤ a.index ∧ a.index ≤ 27 ∧ a.size = 28) ∧
      (a.region = Region.cdata → 0 ≤ a.index ∧ a.index ≤ r ∧ (a.size : Int) = r + 1) := by
  have hz : ∀ a ∈ zeroAccesses 28, a.inBounds ∧
      (a.region = Region.buf → 0 ≤ a.index ∧ a.index ≤ 27 ∧ a.size = 28) ∧
      (a.region = Region.cdata → 0 ≤ a.index ∧ a.index ≤ r ∧ (a.size : Int) = r + 1) := by
    intro a ha
    obtain ⟨h1, h2, h3, h4⟩ := mem_zeroAccesses 28 a ha
    refine ⟨⟨h2, by rw [h4]; exact_mod_cast h3⟩, fun _ => ⟨h2, by push_cast at h3; omega, h4⟩, ?_⟩
    intro h; rw [h1] at h; cases h
  intro a ha
  by_cases hv : validArgs prhs
  · cases hr : readable os prhs w with
    | false =>
      rw [mexFunction_idle os junk prhs w hv hr] at ha
      exact hz a ha
    | true =>
      rw [mexFunction_ready os junk prhs w hv hr, hret] at ha
      simp only [List.mem_append, List.mem_singleton] at ha
      have e1 : ((r + 1).toNat : Int) = r + 1 := by omega
      have e2 : (r.toNat : Int) = r := by omega
      rcases ha with (ha | ha) | ha
      · exact hz a ha
      · obtain ⟨h1, h2, h3⟩ := mem_copyAccesses _ _ a ha
        rcases h3 with ⟨h3, h4⟩ | ⟨h3, h4⟩
        · refine ⟨⟨h1, by rw [h4]; push_cast; omega⟩, fun _ => ⟨h1, by omega, h4⟩, ?_⟩
          intro h; rw [h3] at h; cases h
        · refine ⟨⟨h1, by rw [h4]; omega⟩, ?_, fun _ => ⟨h1, by omega, by rw [h4]; omega⟩⟩
          intro h; rw [h3] at h; cases h
      · subst ha
        refine ⟨⟨h0, by show r < ((r + 1).toNat : Int); omega⟩, ?_, fun _ => ⟨h0, le_refl _, e1⟩⟩
        intro h; cases h
  · obtain ⟨msg, e⟩ := mexFunction_invalid os junk prhs w hv
    rw [e] at ha
    exact hz a ha

/-- A two-byte datagram. -/
theorem every_access_in_bounds_witness :
    (receive queueOS [⟨true, 5⟩] [[1, 2]]).1.ret = 2 ∧
      ∀ a ∈ (mexFunction queueOS (fun _ => 255) [⟨true, 5⟩] [[1, 2]]).accesses,
        a.inBounds ∧
        (a.region = Region.buf → 0 ≤ a.index ∧ a.index ≤ 27 ∧ a.size = 28) ∧
        (a.region = Region.cdata → 0 ≤ a.index ∧ a.index ≤ 2 ∧ (a.size : Int) = 2 + 1) :=
  ⟨by decide,
    every_access_in_bounds queueOS (fun _ => 255) [⟨true, 5⟩] [[1, 2]] 2
      (by decide) (by decide) (by decide)⟩

end Msocket
